import Mathlib

/-
Verification of the brains-py genetic optimizer core and of the simulation
surrogate-model helpers.

The repository ships the unit tests of `brainspy/algorithms/modules/optim.py`
(`GeneticOptimizer`) but not the module itself, so the optimizer is embedded
here from the specification (each such definition carries a doc comment
starting with "Modelled from the spec:"); where the spec leaves a choice open
(notably the generation-count semantics of `step`, spec section 9) the
behavior asserted by the shipped unit tests in
`tests/unit/algorithms/modules/performance/optim_test.py` pins it down.
`brainspy/processors/simulation/model.py` is present in the sources and is
embedded directly.

Real-valued torch tensors are embedded as lists of rationals; the
pseudo-random source is an explicit stream `ℕ → ℚ` of draws expected to lie
in `[0, 1]`.
-/

/-- The error outcomes of the optimizer surface, following the taxonomy of
spec section 7 together with the concrete Python exception classes asserted
by the unit tests.  `rangeError` is the ValueError raised for a gene-range
row with max ≤ min; `shapeError` the IndexError for a malformed gene-range
shape; `typeConfigError` the TypeError for a null gene-range input;
`configurationError` the spec's eager construction-time rejection;
`allocationError` the low-level RuntimeError produced when a tensor with a
negative dimension is allocated; `valueError` the runtime ValueError
contract of `step`; `assertionError` the AssertionError type contract. -/
inductive GAError where
  | rangeError
  | shapeError
  | typeConfigError
  | configurationError
  | allocationError
  | valueError
  | assertionError
  deriving DecidableEq, Repr

/-- The shapes a `gene_ranges` construction argument can take: a missing
(None) value, a one-dimensional array, or a rectangular two-dimensional
table given row by row. -/
inductive GeneInput where
  | nullInput
  | flat (xs : List ℚ)
  | table (rows : List (List ℚ))
  deriving DecidableEq, Repr

/-- Modelled from the spec: gene-range validation of the absent
`GeneticOptimizer.__init__` (spec section 4.1).  A null input fails with the
TypeError contract, a table without exactly 2 columns (or a 1-D input) fails
with the shape (IndexError) contract, and a well-shaped table with some row
whose max ≤ min fails with the RangeError (ValueError) contract; otherwise
the validated list of (min, max) pairs is produced. -/
def validateGeneRanges : GeneInput → Except GAError (List (ℚ × ℚ))
  | .nullInput => .error .typeConfigError
  | .flat _ => .error .shapeError
  | .table rows =>
    if rows.all (fun row => row.length = 2) then
      let prs := rows.map (fun row => (row.getD 0 0, row.getD 1 0))
      if prs.all (fun p => decide (p.1 < p.2)) then .ok prs
      else .error .rangeError
    else .error .shapeError

instance {e a : Type} [DecidableEq e] [DecidableEq a] : DecidableEq (Except e a) := fun x y =>
  match x, y with
  | .ok u, .ok v => if h : u = v then .isTrue (by rw [h]) else .isFalse (by simp [h])
  | .error u, .error v => if h : u = v then .isTrue (by rw [h]) else .isFalse (by simp [h])
  | .ok _, .error _ => .isFalse (by simp)
  | .error _, .ok _ => .isFalse (by simp)

/-- A pseudo-random stream is valid when every draw lies in `[0, 1]`. -/
def RandOK (r : ℕ → ℚ) : Prop := ∀ n, 0 ≤ r n ∧ r n ≤ 1

/-- The constant stream of draws `1/2`, used to instantiate theorems on
concrete inputs. -/
def chalf : ℕ → ℚ := fun _ => 1 / 2

/-- Modelled from the spec: `BoundsTable.sample_uniform` of the absent
optimizer module (spec section 4.1) — one genome drawn uniformly within all
ranges, gene `i` being `min_i + r_i * (max_i - min_i)`. -/
def sample_uniform (ranges : List (ℚ × ℚ)) (r : ℕ → ℚ) : List ℚ :=
  (List.range ranges.length).map (fun i =>
    let p := ranges.getD i (0, 0)
    p.1 + r i * (p.2 - p.1))

/-- Modelled from the spec: `GeneticOptimizer._init_pool` of the absent
optimizer module (spec section 4.2) — the initial population of `n` genomes,
each drawn via `sample_uniform`. -/
def init_pool (ranges : List (ℚ × ℚ)) (n : ℕ) (r : ℕ → ℚ) : List (List ℚ) :=
  (List.range n).map (fun g =>
    sample_uniform ranges (fun k => r (g * ranges.length + k)))

/-- Modelled from the spec: the state of the absent `GeneticOptimizer` class
(spec sections 3 and 4.8): the validated gene-range table, the partition,
the population size `genome_no = sum(partition)`, the configured epoch
horizon, the epoch counter, the blend constants `alpha`/`beta`, the adaptive
mutation rate, and the current population pool. -/
structure GeneticOptimizer where
  gene_ranges : List (ℚ × ℚ)
  partition : List ℤ
  genome_no : ℕ
  epochs : ℕ
  epoch : ℕ
  alpha : ℚ
  beta : ℚ
  mutation_rate : ℚ
  pool : List (List ℚ)
  deriving DecidableEq, Repr

/-- Modelled from the spec: the constructor `GeneticOptimizer.__init__` of
the absent optimizer module (spec sections 4.1, 4.2 and 6).  Gene ranges are
validated first; then the population tensors are allocated, and — as pinned
by `test_init_invalid_negative_dim`, which expects a RuntimeError
("Trying to create tensor with negative dimension") — a negative partition
entry surfaces as the low-level allocation error rather than being rejected
beforehand.  On success, `epoch = 0`, `alpha = 0.6`, `beta = 0.4`, and the
initial pool of `genome_no = sum(partition)` genomes is drawn uniformly
within the gene ranges. -/
def GeneticOptimizer.init (gene_ranges : GeneInput) (partition : List ℤ)
    (epochs : ℕ) (r : ℕ → ℚ) : Except GAError GeneticOptimizer :=
  match validateGeneRanges gene_ranges with
  | .error e => .error e
  | .ok ranges =>
    if partition.any (fun k => decide (k < 0)) then .error .allocationError
    else
      let genome_no := (partition.map Int.toNat).sum
      .ok { gene_ranges := ranges
            partition := partition
            genome_no := genome_no
            epochs := epochs
            epoch := 0
            alpha := 6 / 10
            beta := 4 / 10
            mutation_rate := 1 / 4
            pool := init_pool ranges genome_no r }



/-- Modelled from the spec: the per-gene clamp of `BoundsTable.clip` (spec
section 4.1), applied to the gene at dimension `i`; a gene with no
corresponding range row is left unchanged. -/
def clipGene (ranges : List (ℚ × ℚ)) (i : ℕ) (x : ℚ) : ℚ :=
  match ranges.get? i with
  | some p => max p.1 (min x p.2)
  | none => x

/-- Modelled from the spec: `GeneticOptimizer.crossover_blxab` of the absent
optimizer module (spec section 4.5).  Parent `a` is the better parent.  For
each gene position `i`, with `lo = min (a i) (b i)`, `hi = max (a i) (b i)`
and `d = hi - lo`, the sampling interval is extended by `alpha * d` on the
better parent's side and `beta * d` on the worse parent's side, the offspring
gene is drawn uniformly in the resulting interval (`r i` being the uniform
draw in `[0, 1]`), then clipped into the bounds-table range.  The offspring
has the same length as parent `a`. -/
def crossover_blxab (ranges : List (ℚ × ℚ)) (alpha beta : ℚ)
    (a b : List ℚ) (r : ℕ → ℚ) : List ℚ :=
  (List.range a.length).map (fun i =>
    let ai := a.getD i 0
    let bi := b.getD i 0
    let lo := min ai bi
    let hi := max ai bi
    let d := hi - lo
    let lower := if bi ≤ ai then lo - beta * d else lo - alpha * d
    let upper := if bi ≤ ai then hi + alpha * d else hi + beta * d
    clipGene ranges i (lower + r i * (upper - lower)))

/-- Modelled from the spec: `GeneticOptimizer.linear_rank` of the absent
optimizer module (spec section 4.3) over a population already sorted by
fitness descending: a probability mass vector summing to 1 that decreases
linearly with rank position (the best individual, at position 0, receives
the highest mass). -/
def linear_rank (mu : ℕ) : List ℚ :=
  (List.range mu).map (fun i => 2 * ((mu : ℚ) - i) / ((mu : ℚ) * (mu + 1)))

/-- The running cumulative sums of a probability vector. -/
def cumsum (l : List ℚ) : List ℚ :=
  (List.range l.length).map (fun i => (l.take (i + 1)).sum)

/-- The index selected by one equally spaced pointer `p` over a cumulative
distribution: the first position whose cumulative mass reaches `p`, clamped
into the index range. -/
def pickIndex (cum : List ℚ) (p : ℚ) : ℕ :=
  min (cum.findIdx (fun c => decide (p ≤ c))) (cum.length - 1)

/-- Modelled from the spec: `GeneticOptimizer.universal_sampling` of the
absent optimizer module (spec section 4.4): one uniform offset in
`[0, 1/count)` and `count` equally spaced pointers stepped across the
cumulative distribution of the probability vector. -/
def universal_sampling (probs : List ℚ) (count : ℕ) (offset : ℚ) : List ℕ :=
  let cum := cumsum probs
  (List.range count).map (fun j =>
    pickIndex cum (offset / (count : ℚ) + (j : ℚ) / (count : ℚ)))

/-- Stable descending insertion into a fitness-keyed list: the new pair goes
after every earlier pair with fitness at least as large (the embedding of
the stable descending argsort used to order the pool by fitness). -/
def insertPairDesc (x : ℚ × List ℚ) : List (ℚ × List ℚ) → List (ℚ × List ℚ)
  | [] => [x]
  | y :: ys => if x.1 ≤ y.1 then y :: insertPairDesc x ys else x :: y :: ys

/-- Stable descending insertion sort on fitness-keyed pairs. -/
def sortPairsDesc : List (ℚ × List ℚ) → List (ℚ × List ℚ)
  | [] => []
  | x :: xs => insertPairDesc x (sortPairsDesc xs)

/-- Modelled from the spec: the stable reordering of the pool by fitness
descending performed at the start of a generation (spec sections 4.3 and
4.8), ties broken by original population order. -/
def sortByFitnessDesc (f : List ℚ) (pool : List (List ℚ)) : List (List ℚ) :=
  (sortPairsDesc (List.zip f pool)).map Prod.snd

/-- Modelled from the spec: `GeneticOptimizer.crossover` of the absent
optimizer module (spec section 4.5): the first partition share of the
fitness-sorted pool is carried over unmodified as elitism, and the second
share is regenerated by repeated `crossover_blxab` on parent pairs chosen by
the sampler (the earlier-chosen parent of each pair, which has higher
selection probability, is passed first as the better parent). -/
def crossover_pool (o : GeneticOptimizer) (chosen : List ℕ)
    (pool : List (List ℚ)) (r : ℕ → ℚ) : List (List ℚ) :=
  let n1 := (o.partition.headD 0).toNat
  let n2 := o.genome_no - n1
  pool.take n1 ++ (List.range n2).map (fun k =>
    let pa := pool.getD (chosen.getD (2 * k) 0) []
    let pb := pool.getD (chosen.getD (2 * k + 1) 0) []
    crossover_blxab o.gene_ranges o.alpha o.beta pa pb
      (fun n => r (k * (o.gene_ranges.length + 1) + n)))

/-- Modelled from the spec: `GeneticOptimizer.update_mutation_rate` of the
absent optimizer module (spec section 4.6): the mutation rate decays
linearly with the epoch counter from an initial rate `1/4` toward a floor
rate `1/100` over the configured epoch horizon; deterministic given the
epoch count. -/
def update_mutation_rate (o : GeneticOptimizer) : GeneticOptimizer :=
  { o with mutation_rate :=
      1 / 4 - ((1 / 4 - 1 / 100) * (o.epoch : ℚ)) / (o.epochs : ℚ) }

/-- Modelled from the spec: the per-genome part of
`GeneticOptimizer.mutation` (spec section 4.6): each gene independently,
with probability equal to the current mutation rate (`r (2 i) < rate` being
the coin flip), is replaced by a fresh uniform draw within its bounds-table
range (`r (2 i + 1)` being the draw); otherwise it is left unchanged. -/
def mutateGenome (ranges : List (ℚ × ℚ)) (rate : ℚ) (r : ℕ → ℚ)
    (g : List ℚ) : List ℚ :=
  (List.range g.length).map (fun i =>
    if r (2 * i) < rate then
      let p := ranges.getD i (0, 0)
      p.1 + r (2 * i + 1) * (p.2 - p.1)
    else g.getD i 0)

/-- Modelled from the spec: `GeneticOptimizer.mutation` of the absent
optimizer module (spec section 4.6), applied genome by genome over a
population-shaped pool; returns a pool of identical shape and never reads
fitness. -/
def mutation_pool (o : GeneticOptimizer) (pool : List (List ℚ))
    (r : ℕ → ℚ) : List (List ℚ) :=
  (List.range pool.length).map (fun j =>
    mutateGenome o.gene_ranges o.mutation_rate
      (fun n => r (j * (2 * o.gene_ranges.length + 2) + n)) (pool.getD j []))

/-- Modelled from the spec: `GeneticOptimizer.remove_duplicates` of the
absent optimizer module (spec section 4.7): every genome that is an exact
duplicate of an earlier one in iteration order is removed, the first
occurrence being kept. -/
def remove_duplicates : List (List ℚ) → List (List ℚ)
  | [] => []
  | g :: rest => g :: remove_duplicates (rest.filter (fun x => decide (x ≠ g)))
termination_by l => l.length
decreasing_by
  simp only [List.length_cons]
  exact Nat.lt_succ_of_le (List.length_filter_le _ _)

/-- Modelled from the spec: one full generation cycle of the absent
optimizer module (spec section 4.8): reorder the pool by fitness, rank,
sample, crossover (elite share plus blend-crossover offspring), mutate,
deduplicate and refill back to `genome_no` with fresh uniform genomes,
replace the population, advance the epoch counter by 1, and update the
mutation rate once. -/
def one_generation (o : GeneticOptimizer) (f : List ℚ) (r : ℕ → ℚ) :
    GeneticOptimizer :=
  let sorted := sortByFitnessDesc f o.pool
  let probs := linear_rank o.genome_no
  let n1 := (o.partition.headD 0).toNat
  let chosen := universal_sampling probs (2 * (o.genome_no - n1)) (r 0)
  let budget := (o.genome_no + 1) * (2 * o.gene_ranges.length + 2)
  let crossed := crossover_pool o chosen sorted (fun n => r (n + 1))
  let mutated := mutation_pool o crossed (fun n => r (n + 1 + budget))
  let deduped := remove_duplicates mutated
  let refilled := deduped ++ init_pool o.gene_ranges
    (o.genome_no - deduped.length) (fun n => r (n + 1 + 2 * budget))
  update_mutation_rate { o with pool := refilled, epoch := o.epoch + 1 }

/-- `k` successive generation cycles, each consuming a shifted segment of
the pseudo-random stream. -/
def run_gens : ℕ → GeneticOptimizer → List ℚ → (ℕ → ℚ) → GeneticOptimizer
  | 0, o, _, _ => o
  | k + 1, o, f, r =>
    run_gens k (one_generation o f r) f
      (fun n => r (n + 3 * (o.genome_no + 1) * (2 * o.gene_ranges.length + 2) + 1))

/-- The `criterion_pool` runtime argument of `step`: either a scalar
criterion value (a 0-dimensional tensor, accepted by the reference tests),
or a fitness vector aligned with the population. -/
inductive Criterion where
  | scalar (c : ℚ)
  | vector (v : List ℚ)

/-- Modelled from the spec: `GeneticOptimizer.step` of the absent optimizer
module (spec sections 4.8 and 9).  A fitness vector whose definite length
differs from `genome_no` fails with the ValueError contract; a scalar
criterion is broadcast to the whole population.  As pinned by `test_step`
(which asserts `epoch == 101` after one call with `epochs = 100`) and by the
spec's section-9 note on the observed reference behavior, one successful
call internally executes the entire remaining configured horizon, leaving
the epoch counter at `epochs + 1`. -/
def GeneticOptimizer.step (o : GeneticOptimizer) (criterion_pool : Criterion)
    (r : ℕ → ℚ) : Except GAError GeneticOptimizer :=
  match criterion_pool with
  | .vector v =>
    if v.length = o.genome_no then
      .ok (run_gens (o.epochs + 1 - o.epoch) o v r)
    else .error .valueError
  | .scalar c =>
    .ok (run_gens (o.epochs + 1 - o.epoch) o (List.replicate o.genome_no c) r)

/-- One `step` call in a driving loop, keeping the previous state on a
validation failure (validation failures abort the call with no partial
state change, spec section 7). -/
def stepK (o : GeneticOptimizer) (inp : Criterion × (ℕ → ℚ)) :
    GeneticOptimizer :=
  match o.step inp.1 inp.2 with
  | .ok o' => o'
  | .error _ => o

/-- A whole driving loop: successive `step` calls with the given criterion
inputs and pseudo-random streams. -/
def run_steps (o : GeneticOptimizer) (inputs : List (Criterion × (ℕ → ℚ))) :
    GeneticOptimizer :=
  inputs.foldl stepK o

/-- Gene-bound containment of one genome: every gene that has a
corresponding gene-range row lies within that row's `[min, max]`. -/
def genomeOK (ranges : List (ℚ × ℚ)) (g : List ℚ) : Bool :=
  (List.range g.length).all (fun i =>
    match ranges.get? i with
    | some p => decide (p.1 ≤ g.getD i 0) && decide (g.getD i 0 ≤ p.2)
    | none => true)

/-- Gene-bound containment of a whole pool. -/
def poolOK (ranges : List (ℚ × ℚ)) (pool : List (List ℚ)) : Prop :=
  ∀ g ∈ pool, genomeOK ranges g = true

/-- Validity of a gene-range table: every row satisfies min < max strictly
(spec section 3). -/
def rangesOK (ranges : List (ℚ × ℚ)) : Prop :=
  ∀ p ∈ ranges, p.1 < p.2

/-
Embedding of `brainspy/processors/simulation/model.py` (present in src/).
Python dictionary values occurring in the model-info configuration are
embedded as `PyVal`; a dictionary is an ordered association list keyed by
strings, with Python assignment semantics (overwrite the existing entry, or
append a new one).
-/

/-- A Python value stored in a model-info dictionary: an integer, a list of
integers (e.g. a list of hidden-layer sizes), or a string. -/
inductive PyVal where
  | int (n : ℤ)
  | intList (xs : List ℤ)
  | str (s : String)
  deriving DecidableEq, Repr

/-- Python dictionary lookup (`key in d` / `d[key]`). -/
def dictLookup : List (String × PyVal) → String → Option PyVal
  | [], _ => none
  | (k, v) :: rest, key => if k = key then some v else dictLookup rest key

/-- Python dictionary assignment `d[key] = v`: overwrite the entry if the
key is present, otherwise append it. -/
def dictSet : List (String × PyVal) → String → PyVal → List (String × PyVal)
  | [], key, v => [(key, v)]
  | (k, w) :: rest, key, v =>
    if k = key then (k, v) :: rest else (k, w) :: dictSet rest key v

/-- The default input dimension of `info_consistency_check`
(`model.py`, `default_in_size = 7`). -/
def default_in_size : ℤ := 7

/-- The default output dimension of `info_consistency_check`
(`model.py`, `default_out_size = 1`). -/
def default_out_size : ℤ := 1

/-- The default hidden-layer size of `info_consistency_check`
(`model.py`, `default_hidden_size = 90`). -/
def default_hidden_size : ℤ := 90

/-- The default hidden-layer count of `info_consistency_check`
(`model.py`, `default_hidden_number = 6`). -/
def default_hidden_number : ℤ := 6

/-- `info_consistency_check` from `model.py`: missing `"D_in"`, `"D_out"`
and `"hidden_sizes"` entries are filled with defaults (with a warning) and
the mutated dictionary is returned.  Note that the `"hidden_sizes"` default
is the product `default_hidden_size * default_hidden_number`, a single
integer. -/
def info_consistency_check (model_info : List (String × PyVal)) :
    List (String × PyVal) :=
  let m1 :=
    if (dictLookup model_info "D_in").isNone then
      dictSet model_info "D_in" (.int default_in_size)
    else model_info
  let m2 :=
    if (dictLookup m1 "D_out").isNone then
      dictSet m1 "D_out" (.int default_out_size)
    else m1
  if (dictLookup m2 "hidden_sizes").isNone then
    dictSet m2 "hidden_sizes" (.int (default_hidden_size * default_hidden_number))
  else m2

/-- A torch activation module value (`nn.ReLU()`, `nn.Tanh()`, ...). -/
inductive TorchActivation where
  | relu
  | tanh
  | sigmoid
  | hardtanh
  deriving DecidableEq, Repr

/-- An argument passed to `NeuralNetworkModel._get_activation`: a string
naming an activation, an activation module instance, or any other Python
value. -/
inductive ActivationArg where
  | str (s : String)
  | module (m : TorchActivation)
  | other (v : PyVal)
  deriving DecidableEq, Repr

/-- The `NeuralNetworkModel` class of `model.py`: the `verbose` flag set at
construction and the `info` attribute installed by `load_state_dict`. -/
structure NeuralNetworkModel where
  verbose : Bool
  info : PyVal
  deriving DecidableEq, Repr

/-- The dictionary that `NeuralNetworkModel.state_dict` builds and then
discards: the parent (`nn.Module`) state dictionary — here an explicit
argument, the parent class being an external collaborator — with the
`"info"` entry attached. -/
def NeuralNetworkModel.state_dict_internal (self : NeuralNetworkModel)
    (parent : List (String × PyVal)) : List (String × PyVal) :=
  dictSet parent "info" self.info

/-- `NeuralNetworkModel.state_dict` from `model.py`: it builds the parent
state dictionary, attaches the `"info"` entry, and — having no return
statement — returns Python's `None` (embedded as `none`) whatever its
arguments are.  The `destination`/`prefix`/`keep_vars` arguments only
influence the parent state dictionary, abstracted here as the `parent`
argument. -/
def NeuralNetworkModel.state_dict (self : NeuralNetworkModel)
    (parent : List (String × PyVal)) : Option (List (String × PyVal)) :=
  let _state_dict := self.state_dict_internal parent
  none

/-- `NeuralNetworkModel._get_activation` from `model.py`: any string
argument whatsoever yields `nn.ReLU()`; any non-string argument is returned
unchanged. -/
def NeuralNetworkModel._get_activation (_self : NeuralNetworkModel)
    (activation : ActivationArg) : ActivationArg :=
  match activation with
  | .str _ => .module .relu
  | x => x

/-
Bookkeeping lemmas: which fields the generation cycle changes.
-/

theorem update_mutation_rate_epoch (o : GeneticOptimizer) :
    (update_mutation_rate o).epoch = o.epoch := rfl

theorem one_generation_epoch (o : GeneticOptimizer) (f : List ℚ) (r : ℕ → ℚ) :
    (one_generation o f r).epoch = o.epoch + 1 := rfl

theorem one_generation_epochs (o : GeneticOptimizer) (f : List ℚ) (r : ℕ → ℚ) :
    (one_generation o f r).epochs = o.epochs := rfl

theorem one_generation_gene_ranges (o : GeneticOptimizer) (f : List ℚ)
    (r : ℕ → ℚ) : (one_generation o f r).gene_ranges = o.gene_ranges := rfl

theorem one_generation_genome_no (o : GeneticOptimizer) (f : List ℚ)
    (r : ℕ → ℚ) : (one_generation o f r).genome_no = o.genome_no := rfl

theorem run_gens_epoch (k : ℕ) :
    ∀ (o : GeneticOptimizer) (f : List ℚ) (r : ℕ → ℚ),
      (run_gens k o f r).epoch = o.epoch + k := by
  induction k with
  | zero => intro o f r; rfl
  | succ k ih =>
    intro o f r
    show (run_gens k (one_generation o f r) f _).epoch = o.epoch + (k + 1)
    rw [ih, one_generation_epoch]
    omega

theorem run_gens_epochs (k : ℕ) :
    ∀ (o : GeneticOptimizer) (f : List ℚ) (r : ℕ → ℚ),
      (run_gens k o f r).epochs = o.epochs := by
  induction k with
  | zero => intro o f r; rfl
  | succ k ih =>
    intro o f r
    show (run_gens k (one_generation o f r) f _).epochs = o.epochs
    rw [ih, one_generation_epochs]

theorem run_gens_gene_ranges (k : ℕ) :
    ∀ (o : GeneticOptimizer) (f : List ℚ) (r : ℕ → ℚ),
      (run_gens k o f r).gene_ranges = o.gene_ranges := by
  induction k with
  | zero => intro o f r; rfl
  | succ k ih =>
    intro o f r
    show (run_gens k (one_generation o f r) f _).gene_ranges = o.gene_ranges
    rw [ih, one_generation_gene_ranges]

theorem step_scalar_eq (o : GeneticOptimizer) (c : ℚ) (r : ℕ → ℚ) :
    o.step (.scalar c) r =
      .ok (run_gens (o.epochs + 1 - o.epoch) o (List.replicate o.genome_no c) r) :=
  rfl

theorem step_vector_ok (o : GeneticOptimizer) (v : List ℚ) (r : ℕ → ℚ)
    (h : v.length = o.genome_no) :
    o.step (.vector v) r = .ok (run_gens (o.epochs + 1 - o.epoch) o v r) := by
  simp [GeneticOptimizer.step, h]

theorem step_vector_error (o : GeneticOptimizer) (v : List ℚ) (r : ℕ → ℚ)
    (h : v.length ≠ o.genome_no) :
    o.step (.vector v) r = .error .valueError := by
  simp [GeneticOptimizer.step, h]

/-- Any successful `step` call starting from an epoch not beyond the
configured horizon runs the full remaining horizon and leaves the epoch
counter at `epochs + 1`. -/
theorem step_ok_epoch (o o' : GeneticOptimizer) (c : Criterion) (r : ℕ → ℚ)
    (h : o.epoch ≤ o.epochs) (hs : o.step c r = .ok o') :
    o'.epoch = o.epochs + 1 := by
  cases c with
  | scalar c =>
    rw [step_scalar_eq] at hs
    cases hs
    rw [run_gens_epoch]
    omega
  | vector v =>
    by_cases hv : v.length = o.genome_no
    · rw [step_vector_ok o v r hv] at hs
      cases hs
      rw [run_gens_epoch]
      omega
    · rw [step_vector_error o v r hv] at hs
      cases hs

/-
Construction inversion lemmas.
-/

theorem validateGeneRanges_rangesOK {gi : GeneInput} {ranges : List (ℚ × ℚ)}
    (h : validateGeneRanges gi = .ok ranges) : rangesOK ranges := by
  cases gi with
  | nullInput => cases h
  | flat xs => cases h
  | table rows =>
    simp only [validateGeneRanges] at h
    split at h
    · split at h
      · rename_i hall
        injection h with h'
        subst h'
        intro p hp
        simpa using List.all_eq_true.mp hall p hp
      · cases h
    · cases h

theorem init_ok_facts {gi : GeneInput} {p : List ℤ} {e : ℕ} {r : ℕ → ℚ}
    {o : GeneticOptimizer} (h : GeneticOptimizer.init gi p e r = .ok o) :
    validateGeneRanges gi = .ok o.gene_ranges ∧ o.partition = p ∧
    o.genome_no = (p.map Int.toNat).sum ∧ o.epochs = e ∧ o.epoch = 0 ∧
    o.alpha = 6 / 10 ∧ o.beta = 4 / 10 ∧ o.mutation_rate = 1 / 4 ∧
    o.pool = init_pool o.gene_ranges o.genome_no r := by
  unfold GeneticOptimizer.init at h
  cases hv : validateGeneRanges gi with
  | error e' => rw [hv] at h; cases h
  | ok ranges =>
    rw [hv] at h
    replace h : (if (p.any fun k => decide (k < 0)) = true then
        (.error .allocationError : Except GAError GeneticOptimizer)
      else
        .ok { gene_ranges := ranges, partition := p,
              genome_no := (p.map Int.toNat).sum, epochs := e, epoch := 0,
              alpha := 6 / 10, beta := 4 / 10, mutation_rate := 1 / 4,
              pool := init_pool ranges (p.map Int.toNat).sum r }) = .ok o := h
    by_cases hp : (p.any fun k => decide (k < 0)) = true
    · rw [if_pos hp] at h
      cases h
    · rw [if_neg hp] at h
      injection h with h'
      subst h'
      exact ⟨rfl, rfl, rfl, rfl, rfl, rfl, rfl, rfl, rfl⟩

/-
Gene-bound containment lemmas.
-/

theorem randOK_comp {r : ℕ → ℚ} (hr : RandOK r) (e : ℕ → ℕ) :
    RandOK (fun n => r (e n)) := fun n => hr (e n)

theorem getD_map_range {α : Type} (f : ℕ → α) (N i : ℕ) (d : α) (h : i < N) :
    ((List.range N).map f).getD i d = f i := by
  rw [List.getD_eq_getElem?_getD, List.getElem?_map, List.getElem?_range h]
  rfl

theorem getD_mem {α : Type} (l : List α) (i : ℕ) (d : α) (h : i < l.length) :
    l.getD i d ∈ l := by
  rw [List.getD_eq_getElem?_getD, List.getElem?_eq_getElem h]
  exact List.getElem_mem h

/-- Establishing `genomeOK` for a genome built gene by gene over positions
`0, ..., N - 1`. -/
theorem genomeOK_of_map_range {ranges : List (ℚ × ℚ)} {N : ℕ} {f : ℕ → ℚ}
    (h : ∀ i, i < N → ∀ p, ranges.get? i = some p →
      p.1 ≤ f i ∧ f i ≤ p.2) :
    genomeOK ranges ((List.range N).map f) = true := by
  unfold genomeOK
  rw [List.all_eq_true]
  intro i hi
  rw [List.length_map, List.length_range] at hi
  rw [List.mem_range] at hi
  cases hp : ranges.get? i with
  | none => simp
  | some p =>
    have hfd : ((List.range N).map f).getD i 0 = f i := getD_map_range f N i 0 hi
    have := h i hi p hp
    simp only [hfd]
    rw [Bool.and_eq_true, decide_eq_true_eq, decide_eq_true_eq]
    exact this

/-- Extracting the per-gene bounds from `genomeOK`. -/
theorem genomeOK_elim {ranges : List (ℚ × ℚ)} {g : List ℚ}
    (h : genomeOK ranges g = true) (i : ℕ) (hi : i < g.length)
    (p : ℚ × ℚ) (hp : ranges.get? i = some p) :
    p.1 ≤ g.getD i 0 ∧ g.getD i 0 ≤ p.2 := by
  unfold genomeOK at h
  rw [List.all_eq_true] at h
  have := h i (by rw [List.mem_range]; exact hi)
  rw [hp] at this
  rw [Bool.and_eq_true, decide_eq_true_eq, decide_eq_true_eq] at this
  exact this

/-- A uniform draw with a coefficient in `[0, 1]` lands in the range. -/
theorem uniform_in_range {lo hi t : ℚ} (hle : lo ≤ hi) (h0 : 0 ≤ t)
    (h1 : t ≤ 1) : lo ≤ lo + t * (hi - lo) ∧ lo + t * (hi - lo) ≤ hi := by
  constructor
  · nlinarith
  · nlinarith

/-- A gene-range row reached by position lookup satisfies min < max. -/
theorem rangesOK_get? {ranges : List (ℚ × ℚ)} (hR : rangesOK ranges)
    {i : ℕ} {p : ℚ × ℚ} (hp : ranges.get? i = some p) : p.1 < p.2 := by
  apply hR
  exact List.get?_mem hp

theorem sample_uniform_ok {ranges : List (ℚ × ℚ)} {r : ℕ → ℚ}
    (hR : rangesOK ranges) (hr : RandOK r) :
    genomeOK ranges (sample_uniform ranges r) = true := by
  unfold sample_uniform
  apply genomeOK_of_map_range
  intro i hi p hp
  have hpd : ranges.getD i (0, 0) = p := by
    rw [List.getD_eq_getElem?_getD, ← List.get?_eq_getElem?, hp]
    rfl
  rw [hpd]
  exact uniform_in_range (le_of_lt (rangesOK_get? hR hp)) (hr i).1 (hr i).2

theorem init_pool_ok {ranges : List (ℚ × ℚ)} {n : ℕ} {r : ℕ → ℚ}
    (hR : rangesOK ranges) (hr : RandOK r) :
    poolOK ranges (init_pool ranges n r) := by
  intro g hg
  unfold init_pool at hg
  rw [List.mem_map] at hg
  obtain ⟨j, _, rfl⟩ := hg
  exact sample_uniform_ok hR (randOK_comp hr _)

theorem clipGene_ok {ranges : List (ℚ × ℚ)} (hR : rangesOK ranges) {i : ℕ}
    {p : ℚ × ℚ} (hp : ranges.get? i = some p) (x : ℚ) :
    p.1 ≤ clipGene ranges i x ∧ clipGene ranges i x ≤ p.2 := by
  unfold clipGene
  rw [hp]
  exact ⟨le_max_left _ _,
    max_le (le_of_lt (rangesOK_get? hR hp)) (min_le_right _ _)⟩

/-- Whatever the parents and the draws, a blend-crossover offspring is
clipped into the gene ranges. -/
theorem crossover_blxab_ok {ranges : List (ℚ × ℚ)} {alpha beta : ℚ}
    {a b : List ℚ} {r : ℕ → ℚ} (hR : rangesOK ranges) :
    genomeOK ranges (crossover_blxab ranges alpha beta a b r) = true := by
  unfold crossover_blxab
  apply genomeOK_of_map_range
  intro i _ p hp
  exact clipGene_ok hR hp _

theorem mutateGenome_ok {ranges : List (ℚ × ℚ)} {rate : ℚ} {r : ℕ → ℚ}
    {g : List ℚ} (hR : rangesOK ranges) (hr : RandOK r)
    (hg : genomeOK ranges g = true) :
    genomeOK ranges (mutateGenome ranges rate r g) = true := by
  unfold mutateGenome
  apply genomeOK_of_map_range
  intro i hi p hp
  by_cases hc : r (2 * i) < rate
  · rw [if_pos hc]
    have hpd : ranges.getD i (0, 0) = p := by
      rw [List.getD_eq_getElem?_getD, ← List.get?_eq_getElem?, hp]
      rfl
    rw [hpd]
    exact uniform_in_range (le_of_lt (rangesOK_get? hR hp))
      (hr (2 * i + 1)).1 (hr (2 * i + 1)).2
  · rw [if_neg hc]
    exact genomeOK_elim hg i hi p hp

theorem mutation_pool_ok {o : GeneticOptimizer} {pool : List (List ℚ)}
    {r : ℕ → ℚ} (hR : rangesOK o.gene_ranges) (hr : RandOK r)
    (hp : poolOK o.gene_ranges pool) :
    poolOK o.gene_ranges (mutation_pool o pool r) := by
  intro g hg
  unfold mutation_pool at hg
  rw [List.mem_map] at hg
  obtain ⟨j, hj, rfl⟩ := hg
  rw [List.mem_range] at hj
  exact mutateGenome_ok hR (randOK_comp hr _) (hp _ (getD_mem pool j [] hj))

theorem remove_duplicates_cons (g : List ℚ) (rest : List (List ℚ)) :
    remove_duplicates (g :: rest) =
      g :: remove_duplicates (rest.filter (fun x => decide (x ≠ g))) := by
  simp only [remove_duplicates]

theorem remove_duplicates_subset_aux :
    ∀ (n : ℕ) (l : List (List ℚ)), l.length ≤ n →
      ∀ g ∈ remove_duplicates l, g ∈ l := by
  intro n
  induction n with
  | zero =>
    intro l hl g hg
    have : l = [] := List.eq_nil_of_length_eq_zero (Nat.le_zero.mp hl)
    subst this
    simp [remove_duplicates] at hg
  | succ n ih =>
    intro l hl g hg
    cases l with
    | nil => simp [remove_duplicates] at hg
    | cons a rest =>
      rw [remove_duplicates_cons] at hg
      rcases List.mem_cons.mp hg with h | h
      · exact h ▸ List.mem_cons_self a rest
      · have hlen : (rest.filter (fun x => decide (x ≠ a))).length ≤ n := by
          have := List.length_filter_le (fun x => decide (x ≠ a)) rest
          simp only [List.length_cons] at hl
          omega
        have := ih _ hlen g h
        exact List.mem_cons_of_mem a (List.mem_of_mem_filter this)

theorem remove_duplicates_subset (l : List (List ℚ)) :
    ∀ g ∈ remove_duplicates l, g ∈ l :=
  remove_duplicates_subset_aux l.length l le_rfl

theorem remove_duplicates_nodup_aux :
    ∀ (n : ℕ) (l : List (List ℚ)), l.length ≤ n →
      (remove_duplicates l).Nodup := by
  intro n
  induction n with
  | zero =>
    intro l hl
    have : l = [] := List.eq_nil_of_length_eq_zero (Nat.le_zero.mp hl)
    subst this
    simp [remove_duplicates]
  | succ n ih =>
    intro l hl
    cases l with
    | nil => simp [remove_duplicates]
    | cons a rest =>
      rw [remove_duplicates_cons]
      have hlen : (rest.filter (fun x => decide (x ≠ a))).length ≤ n := by
        have := List.length_filter_le (fun x => decide (x ≠ a)) rest
        simp only [List.length_cons] at hl
        omega
      refine List.Nodup.cons ?_ (ih _ hlen)
      intro hmem
      have := remove_duplicates_subset _ a hmem
      have := List.of_mem_filter this
      simp at this

theorem remove_duplicates_nodup (l : List (List ℚ)) :
    (remove_duplicates l).Nodup :=
  remove_duplicates_nodup_aux l.length l le_rfl

theorem remove_duplicates_eq_of_nodup_aux :
    ∀ (n : ℕ) (l : List (List ℚ)), l.length ≤ n → l.Nodup →
      remove_duplicates l = l := by
  intro n
  induction n with
  | zero =>
    intro l hl _
    have : l = [] := List.eq_nil_of_length_eq_zero (Nat.le_zero.mp hl)
    subst this
    simp [remove_duplicates]
  | succ n ih =>
    intro l hl hnd
    cases l with
    | nil => simp [remove_duplicates]
    | cons a rest =>
      rw [remove_duplicates_cons]
      have hnot : a ∉ rest := (List.nodup_cons.mp hnd).1
      have hfil : rest.filter (fun x => decide (x ≠ a)) = rest := by
        apply List.filter_eq_self.mpr
        intro x hx
        simp only [decide_eq_true_eq]
        intro hxa
        exact hnot (hxa ▸ hx)
      rw [hfil]
      simp only [List.length_cons] at hl
      rw [ih rest (by omega) (List.nodup_cons.mp hnd).2]

theorem remove_duplicates_eq_of_nodup {l : List (List ℚ)} (h : l.Nodup) :
    remove_duplicates l = l :=
  remove_duplicates_eq_of_nodup_aux l.length l le_rfl h

theorem remove_duplicates_idem (l : List (List ℚ)) :
    remove_duplicates (remove_duplicates l) = remove_duplicates l :=
  remove_duplicates_eq_of_nodup (remove_duplicates_nodup l)

theorem remove_duplicates_length_aux :
    ∀ (n : ℕ) (l : List (List ℚ)), l.length ≤ n →
      (remove_duplicates l).length ≤ l.length := by
  intro n
  induction n with
  | zero =>
    intro l hl
    have : l = [] := List.eq_nil_of_length_eq_zero (Nat.le_zero.mp hl)
    subst this
    simp [remove_duplicates]
  | succ n ih =>
    intro l hl
    cases l with
    | nil => simp [remove_duplicates]
    | cons a rest =>
      rw [remove_duplicates_cons]
      simp only [List.length_cons] at hl ⊢
      have h1 := List.length_filter_le (fun x => decide (x ≠ a)) rest
      have h2 := ih (rest.filter (fun x => decide (x ≠ a))) (by omega)
      omega

theorem remove_duplicates_length (l : List (List ℚ)) :
    (remove_duplicates l).length ≤ l.length :=
  remove_duplicates_length_aux l.length l le_rfl

theorem mem_insertPairDesc {x y : ℚ × List ℚ} :
    ∀ {l : List (ℚ × List ℚ)}, y ∈ insertPairDesc x l ↔ y = x ∨ y ∈ l := by
  intro l
  induction l with
  | nil => simp [insertPairDesc]
  | cons a as ih =>
    unfold insertPairDesc
    by_cases h : x.1 ≤ a.1
    · rw [if_pos h]
      rw [List.mem_cons, ih, List.mem_cons]
      tauto
    · rw [if_neg h]
      simp only [List.mem_cons]

theorem mem_sortPairsDesc {y : ℚ × List ℚ} :
    ∀ {l : List (ℚ × List ℚ)}, y ∈ sortPairsDesc l ↔ y ∈ l := by
  intro l
  induction l with
  | nil => simp [sortPairsDesc]
  | cons a as ih =>
    unfold sortPairsDesc
    rw [mem_insertPairDesc, ih, List.mem_cons]

theorem sortByFitnessDesc_subset {f : List ℚ} {pool : List (List ℚ)} :
    ∀ g ∈ sortByFitnessDesc f pool, g ∈ pool := by
  intro g hg
  unfold sortByFitnessDesc at hg
  rw [List.mem_map] at hg
  obtain ⟨q, hq, rfl⟩ := hg
  rw [mem_sortPairsDesc] at hq
  exact (List.of_mem_zip hq).2

theorem crossover_pool_ok {o : GeneticOptimizer} {chosen : List ℕ}
    {pool : List (List ℚ)} {r : ℕ → ℚ} (hR : rangesOK o.gene_ranges)
    (hp : poolOK o.gene_ranges pool) :
    poolOK o.gene_ranges (crossover_pool o chosen pool r) := by
  intro g hg
  unfold crossover_pool at hg
  rw [List.mem_append] at hg
  rcases hg with hg | hg
  · exact hp g (List.take_subset _ _ hg)
  · rw [List.mem_map] at hg
    obtain ⟨k, _, rfl⟩ := hg
    exact crossover_blxab_ok hR

theorem one_generation_poolOK (o : GeneticOptimizer) (f : List ℚ) (r : ℕ → ℚ)
    (hR : rangesOK o.gene_ranges) (hr : RandOK r)
    (hp : poolOK o.gene_ranges o.pool) :
    poolOK o.gene_ranges (one_generation o f r).pool := by
  intro g hg
  simp only [one_generation, update_mutation_rate, List.mem_append] at hg
  rcases hg with hg | hg
  · have h1 := remove_duplicates_subset _ g hg
    have hsorted : poolOK o.gene_ranges (sortByFitnessDesc f o.pool) :=
      fun g' hg' => hp g' (sortByFitnessDesc_subset g' hg')
    have hcross := @crossover_pool_ok o
      (universal_sampling (linear_rank o.genome_no)
        (2 * (o.genome_no - (o.partition.headD 0).toNat)) (r 0))
      (sortByFitnessDesc f o.pool) (fun n => r (n + 1)) hR hsorted
    exact mutation_pool_ok hR (randOK_comp hr _) hcross g h1
  · exact init_pool_ok hR (randOK_comp hr _) g hg

theorem run_gens_poolOK (k : ℕ) :
    ∀ (o : GeneticOptimizer) (f : List ℚ) (r : ℕ → ℚ),
      rangesOK o.gene_ranges → RandOK r → poolOK o.gene_ranges o.pool →
      poolOK o.gene_ranges (run_gens k o f r).pool := by
  induction k with
  | zero => intro o f r _ _ hp; exact hp
  | succ k ih =>
    intro o f r hR hr hp
    show poolOK o.gene_ranges (run_gens k (one_generation o f r) f _).pool
    have h1 : rangesOK (one_generation o f r).gene_ranges := by
      rw [one_generation_gene_ranges]; exact hR
    have h2 : poolOK (one_generation o f r).gene_ranges
        (one_generation o f r).pool := by
      rw [one_generation_gene_ranges]
      exact one_generation_poolOK o f r hR hr hp
    have h3 := ih (one_generation o f r) f
      (fun n => r (n + 3 * (o.genome_no + 1) * (2 * o.gene_ranges.length + 2) + 1))
      h1 (randOK_comp hr _) h2
    rw [one_generation_gene_ranges] at h3
    exact h3

/-- A successful `step` call preserves the gene-range table and keeps every
genome of the replaced population within the gene ranges. -/
theorem step_ok_poolOK {o o' : GeneticOptimizer} {c : Criterion} {r : ℕ → ℚ}
    (hR : rangesOK o.gene_ranges) (hr : RandOK r)
    (hp : poolOK o.gene_ranges o.pool) (hs : o.step c r = .ok o') :
    o'.gene_ranges = o.gene_ranges ∧ poolOK o'.gene_ranges o'.pool := by
  cases c with
  | scalar c =>
    rw [step_scalar_eq] at hs
    cases hs
    constructor
    · rw [run_gens_gene_ranges]
    · rw [run_gens_gene_ranges]
      exact run_gens_poolOK _ o _ r hR hr hp
  | vector v =>
    by_cases hv : v.length = o.genome_no
    · rw [step_vector_ok o v r hv] at hs
      cases hs
      constructor
      · rw [run_gens_gene_ranges]
      · rw [run_gens_gene_ranges]
        exact run_gens_poolOK _ o _ r hR hr hp
    · rw [step_vector_error o v r hv] at hs
      cases hs

/-- A whole driving loop preserves the gene-range table and gene-bound
containment of the population, whatever criterion inputs it supplies. -/
theorem run_steps_poolOK :
    ∀ (inputs : List (Criterion × (ℕ → ℚ))) (o : GeneticOptimizer),
      rangesOK o.gene_ranges → (∀ q ∈ inputs, RandOK q.2) →
      poolOK o.gene_ranges o.pool →
      (run_steps o inputs).gene_ranges = o.gene_ranges ∧
        poolOK o.gene_ranges (run_steps o inputs).pool := by
  intro inputs
  induction inputs with
  | nil => intro o _ _ hp; exact ⟨rfl, hp⟩
  | cons q qs ih =>
    intro o hR hq hp
    have hq1 : RandOK q.2 := hq q (List.mem_cons_self _ _)
    have hkey : (stepK o q).gene_ranges = o.gene_ranges ∧
        poolOK o.gene_ranges (stepK o q).pool := by
      unfold stepK
      cases hs : o.step q.1 q.2 with
      | ok o' =>
        obtain ⟨h1, h2⟩ := step_ok_poolOK hR hq1 hp hs
        rw [h1] at h2
        exact ⟨h1, h2⟩
      | error _ => exact ⟨rfl, hp⟩
    obtain ⟨h1, h2⟩ := hkey
    have h3 := ih (stepK o q) (by rw [h1]; exact hR)
      (fun x hx => hq x (List.mem_cons_of_mem _ hx)) (by rw [h1]; exact h2)
    obtain ⟨h4, h5⟩ := h3
    rw [h1] at h4 h5
    exact ⟨h4, h5⟩

/-
Dictionary lemmas for the model.py embedding.
-/

theorem dictLookup_dictSet_self (d : List (String × PyVal)) (k : String)
    (v : PyVal) : dictLookup (dictSet d k v) k = some v := by
  induction d with
  | nil => simp [dictSet, dictLookup]
  | cons a rest ih =>
    obtain ⟨ka, va⟩ := a
    unfold dictSet
    by_cases h : ka = k
    · rw [if_pos h]
      unfold dictLookup
      rw [if_pos h]
    · rw [if_neg h]
      unfold dictLookup
      rw [if_neg h]
      exact ih

theorem dictLookup_dictSet_ne (d : List (String × PyVal)) (k k' : String)
    (v : PyVal) (hne : k' ≠ k) :
    dictLookup (dictSet d k v) k' = dictLookup d k' := by
  induction d with
  | nil =>
    unfold dictSet dictLookup
    rw [if_neg (fun h => hne h.symm)]
    rfl
  | cons a rest ih =>
    obtain ⟨ka, va⟩ := a
    unfold dictSet
    by_cases h : ka = k
    · rw [if_pos h]
      unfold dictLookup
      by_cases h2 : ka = k'
      · exact absurd (h2.symm.trans h) hne
      · rw [if_neg h2, if_neg h2]
    · rw [if_neg h]
      unfold dictLookup
      by_cases h2 : ka = k'
      · rw [if_pos h2, if_pos h2]
      · rw [if_neg h2, if_neg h2]
        exact ih

/-- Claim C9 (confirmed): for every `NeuralNetworkModel` instance and every
parent state dictionary, `state_dict` returns `None`: it builds the parent
state dictionary with the `"info"` entry attached but, lacking a return
statement, callers never receive the state mapping. -/
theorem state_dict_returns_none (self : NeuralNetworkModel)
    (parent : List (String × PyVal)) :
    self.state_dict parent = none ∧
    dictLookup (self.state_dict_internal parent) "info" = some self.info :=
  ⟨rfl, dictLookup_dictSet_self parent "info" self.info⟩

/-- Claim C10 (confirmed): `_get_activation` maps every string argument
whatsoever — including "tanh", "sigmoid" or arbitrary text — to an
`nn.ReLU()` module, and returns every non-string argument unchanged. -/
theorem get_activation_spec (self : NeuralNetworkModel) :
    (∀ s : String, self._get_activation (.str s) = .module .relu) ∧
    (∀ m : TorchActivation, self._get_activation (.module m) = .module m) ∧
    (∀ v : PyVal, self._get_activation (.other v) = .other v) :=
  ⟨fun _ => rfl, fun _ => rfl, fun _ => rfl⟩

/-- On a dictionary lacking `"hidden_sizes"`, `info_consistency_check`
amounts to a `"hidden_sizes"` assignment of the integer default on top of a
dictionary that agrees with the input away from `"D_in"` and `"D_out"`. -/
theorem info_consistency_check_eq (m : List (String × PyVal))
    (h : dictLookup m "hidden_sizes" = none) :
    ∃ m2, info_consistency_check m =
        dictSet m2 "hidden_sizes"
          (.int (default_hidden_size * default_hidden_number)) ∧
      (∀ k, k ≠ "D_in" → k ≠ "D_out" → dictLookup m2 k = dictLookup m k) := by
  have hDin : ("hidden_sizes" : String) ≠ "D_in" := by decide
  have hDout : ("hidden_sizes" : String) ≠ "D_out" := by decide
  simp only [info_consistency_check]
  by_cases h1 : (dictLookup m "D_in").isNone = true
  · rw [if_pos h1]
    by_cases h2 :
        (dictLookup (dictSet m "D_in" (.int default_in_size)) "D_out").isNone = true
    · rw [if_pos h2]
      refine ⟨dictSet (dictSet m "D_in" (.int default_in_size)) "D_out"
        (.int default_out_size), ?_, ?_⟩
      · rw [if_pos ?_]
        rw [dictLookup_dictSet_ne _ _ _ _ hDout,
          dictLookup_dictSet_ne _ _ _ _ hDin, h]
        rfl
      · intro k hk1 hk2
        rw [dictLookup_dictSet_ne _ _ _ _ hk2, dictLookup_dictSet_ne _ _ _ _ hk1]
    · rw [if_neg h2]
      refine ⟨dictSet m "D_in" (.int default_in_size), ?_, ?_⟩
      · rw [if_pos ?_]
        rw [dictLookup_dictSet_ne _ _ _ _ hDin, h]
        rfl
      · intro k hk1 _
        rw [dictLookup_dictSet_ne _ _ _ _ hk1]
  · rw [if_neg h1]
    by_cases h2 : (dictLookup m "D_out").isNone = true
    · rw [if_pos h2]
      refine ⟨dictSet m "D_out" (.int default_out_size), ?_, ?_⟩
      · rw [if_pos ?_]
        rw [dictLookup_dictSet_ne _ _ _ _ hDout, h]
        rfl
      · intro k _ hk2
        rw [dictLookup_dictSet_ne _ _ _ _ hk2]
    · rw [if_neg h2]
      refine ⟨m, ?_, fun k _ _ => rfl⟩
      rw [if_pos ?_]
      rw [h]
      rfl

/-- Claim C8 (confirmed): on any input dictionary lacking the key
`"hidden_sizes"`, `info_consistency_check` installs the single integer
`540 = 90 * 6` under `"hidden_sizes"` — not a list of six layer sizes of 90
as its warning message announces — and returns the input dictionary mutated
only at the defaulted keys. -/
theorem info_consistency_check_hidden_sizes (m : List (String × PyVal))
    (h : dictLookup m "hidden_sizes" = none) :
    dictLookup (info_consistency_check m) "hidden_sizes" = some (.int 540) ∧
    dictLookup (info_consistency_check m) "hidden_sizes" ≠
      some (.intList (List.replicate 6 90)) ∧
    (∀ k, k ≠ "D_in" → k ≠ "D_out" → k ≠ "hidden_sizes" →
      dictLookup (info_consistency_check m) k = dictLookup m k) := by
  obtain ⟨m2, hicc, hm2⟩ := info_consistency_check_eq m h
  have h540 : dictLookup (info_consistency_check m) "hidden_sizes" =
      some (.int 540) := by
    rw [hicc, dictLookup_dictSet_self]
    rfl
  refine ⟨h540, ?_, ?_⟩
  · rw [h540]
    simp
  · intro k hk1 hk2 hk3
    rw [hicc, dictLookup_dictSet_ne _ _ _ _ hk3, hm2 k hk1 hk2]

theorem info_consistency_check_hidden_sizes_witness :
    dictLookup (info_consistency_check []) "hidden_sizes" = some (.int 540) :=
  (info_consistency_check_hidden_sizes [] rfl).1

/-
Concrete instantiation machinery for the optimizer claims.
-/

theorem randOK_chalf : RandOK chalf := by
  intro n
  constructor <;> norm_num [chalf]

/-- The forward direction of construction: with validated gene ranges and a
partition free of negative entries, `GeneticOptimizer.init` succeeds with the
documented initial state. -/
theorem init_eq_ok {gi : GeneInput} {ranges : List (ℚ × ℚ)} {p : List ℤ}
    {e : ℕ} {r : ℕ → ℚ} (hv : validateGeneRanges gi = .ok ranges)
    (hp : (p.any fun k => decide (k < 0)) = false) :
    GeneticOptimizer.init gi p e r =
      .ok { gene_ranges := ranges, partition := p,
            genome_no := (p.map Int.toNat).sum, epochs := e, epoch := 0,
            alpha := 6 / 10, beta := 4 / 10, mutation_rate := 1 / 4,
            pool := init_pool ranges (p.map Int.toNat).sum r } := by
  unfold GeneticOptimizer.init
  rw [hv]
  simp [hp]

theorem validateGeneRanges_demo :
    validateGeneRanges (.table [[0, 1]]) = .ok [((0 : ℚ), (1 : ℚ))] := by
  simp [validateGeneRanges]

/-- A small concretely constructed optimizer: one gene with range `[0, 1]`,
partition `(1, 1)`, horizon of 1 epoch. -/
def demoOpt : GeneticOptimizer :=
  { gene_ranges := [(0, 1)], partition := [1, 1], genome_no := 2, epochs := 1,
    epoch := 0, alpha := 6 / 10, beta := 4 / 10, mutation_rate := 1 / 4,
    pool := init_pool [(0, 1)] 2 chalf }

theorem init_demo :
    GeneticOptimizer.init (.table [[0, 1]]) [1, 1] 1 chalf = .ok demoOpt := by
  rw [init_eq_ok validateGeneRanges_demo (by decide)]
  rfl

/-- Claim C1 (corrected) counterexample: a concretely constructed optimizer
with `epochs = 1` and `epoch = 0` reaches `epoch = 2`, not `epoch = 1`,
after one single successful `step` call — `step` runs the whole configured
horizon rather than advancing the counter by exactly 1 (as `test_step`
asserts with `epochs = 100` and `epoch == 101`). -/
theorem step_epoch_counterexample :
    ∃ o o', GeneticOptimizer.init (.table [[0, 1]]) [1, 1] 1 chalf = .ok o ∧
      o.step (.scalar 5) chalf = .ok o' ∧ o.epoch = 0 ∧ o'.epoch ≠ 1 := by
  refine ⟨demoOpt, _, init_demo, step_scalar_eq demoOpt 5 chalf, rfl, ?_⟩
  have h := step_ok_epoch demoOpt _ (.scalar 5) chalf (by decide)
    (step_scalar_eq demoOpt 5 chalf)
  rw [h]
  decide

/-- Claim C1 (corrected, amended): one successful `step` call on any
successfully constructed optimizer leaves the epoch counter at
`epochs + 1` — the entire configured horizon runs inside the single call —
rather than incrementing it by exactly 1. -/
theorem step_epoch_full_horizon (gi : GeneInput) (p : List ℤ) (e : ℕ)
    (r r' : ℕ → ℚ) (o o' : GeneticOptimizer) (c : Criterion)
    (ho : GeneticOptimizer.init gi p e r = .ok o)
    (hs : o.step c r' = .ok o') : o'.epoch = o.epochs + 1 := by
  have h := init_ok_facts ho
  exact step_ok_epoch o o' c r' (by rw [h.2.2.2.2.1]; exact Nat.zero_le _) hs

theorem step_epoch_full_horizon_witness :
    ∃ o o', GeneticOptimizer.init (.table [[0, 1]]) [1, 1] 1 chalf = .ok o ∧
      o.step (.scalar 5) chalf = .ok o' ∧ o'.epoch = o.epochs + 1 :=
  ⟨demoOpt, _, init_demo, step_scalar_eq demoOpt 5 chalf,
    step_epoch_full_horizon (.table [[0, 1]]) [1, 1] 1 chalf chalf demoOpt _
      (.scalar 5) init_demo (step_scalar_eq demoOpt 5 chalf)⟩

/-- Claim C2 (confirmed): for every valid gene-range table, every genome of
every population the optimizer produces lies within the per-gene
`[min, max]` ranges — immediately after construction, after any crossover of
an in-bounds pool, after any mutation of an in-bounds pool, and after any
sequence of `step` calls of a driving loop. -/
theorem gene_bounds_invariant (gi : GeneInput) (p : List ℤ) (e : ℕ)
    (r : ℕ → ℚ) (o : GeneticOptimizer) (hr : RandOK r)
    (ho : GeneticOptimizer.init gi p e r = .ok o) :
    poolOK o.gene_ranges o.pool ∧
    (∀ (chosen : List ℕ) (pool : List (List ℚ)) (r' : ℕ → ℚ),
      poolOK o.gene_ranges pool →
      poolOK o.gene_ranges (crossover_pool o chosen pool r')) ∧
    (∀ (pool : List (List ℚ)) (r' : ℕ → ℚ), RandOK r' →
      poolOK o.gene_ranges pool →
      poolOK o.gene_ranges (mutation_pool o pool r')) ∧
    (∀ (inputs : List (Criterion × (ℕ → ℚ))), (∀ q ∈ inputs, RandOK q.2) →
      poolOK o.gene_ranges (run_steps o inputs).pool) := by
  obtain ⟨hv, _, _, _, _, _, _, _, hpool⟩ := init_ok_facts ho
  have hR : rangesOK o.gene_ranges := validateGeneRanges_rangesOK hv
  have hinit : poolOK o.gene_ranges o.pool := by
    rw [hpool]
    exact init_pool_ok hR hr
  refine ⟨hinit, ?_, ?_, ?_⟩
  · intro chosen pool r' hp
    exact crossover_pool_ok hR hp
  · intro pool r' hr' hp
    exact mutation_pool_ok hR hr' hp
  · intro inputs hq
    exact (run_steps_poolOK inputs o hR hq hinit).2

theorem gene_bounds_invariant_witness :
    ∃ o, GeneticOptimizer.init (.table [[0, 1]]) [1, 1] 1 chalf = .ok o ∧
      poolOK o.gene_ranges o.pool ∧
      poolOK o.gene_ranges
        (run_steps o [(.scalar 5, chalf)]).pool :=
  ⟨demoOpt, init_demo,
    (gene_bounds_invariant (.table [[0, 1]]) [1, 1] 1 chalf demoOpt
      randOK_chalf init_demo).1,
    (gene_bounds_invariant (.table [[0, 1]]) [1, 1] 1 chalf demoOpt
      randOK_chalf init_demo).2.2.2 [(.scalar 5, chalf)]
      (by intro q hq; rw [List.mem_singleton] at hq; rw [hq]; exact randOK_chalf)⟩

/-- Claim C3 (corrected) counterexample: construction with the negative
partition `[-11, 2]` fails with the low-level allocation error (the
RuntimeError for a negative tensor dimension, exactly what
`test_init_invalid_negative_dim` expects), which is a different failure from
the ConfigurationError the claim requires before any allocation. -/
theorem init_negative_partition_counterexample :
    GeneticOptimizer.init (.table [[0, 1]]) [-11, 2] 100 chalf =
      .error .allocationError ∧
    GeneticOptimizer.init (.table [[0, 1]]) [-11, 2] 100 chalf ≠
      .error .configurationError := by
  have h : GeneticOptimizer.init (.table [[0, 1]]) [-11, 2] 100 chalf =
      .error .allocationError := by
    unfold GeneticOptimizer.init
    rw [validateGeneRanges_demo]
    simp
  refine ⟨h, ?_⟩
  rw [h]
  simp

/-- Claim C3 (corrected, amended): for every partition containing a negative
entry (and otherwise valid gene ranges), construction fails — but with the
low-level allocation failure (RuntimeError: trying to create a tensor with a
negative dimension), not with a ConfigurationError raised before
allocation. -/
theorem init_negative_partition_allocation_error (gi : GeneInput)
    (ranges : List (ℚ × ℚ)) (p : List ℤ) (e : ℕ) (r : ℕ → ℚ)
    (hv : validateGeneRanges gi = .ok ranges) (hneg : ∃ k ∈ p, k < 0) :
    GeneticOptimizer.init gi p e r = .error .allocationError := by
  unfold GeneticOptimizer.init
  rw [hv]
  have hp : (p.any fun k => decide (k < 0)) = true := by
    rw [List.any_eq_true]
    obtain ⟨k, hk, hk2⟩ := hneg
    exact ⟨k, hk, by simpa using hk2⟩
  simp [hp]

theorem init_negative_partition_allocation_error_witness :
    GeneticOptimizer.init (.table [[0, 1]]) [-11, 2] 100 chalf =
      .error .allocationError :=
  init_negative_partition_allocation_error (.table [[0, 1]]) [((0 : ℚ), (1 : ℚ))]
    [-11, 2] 100 chalf validateGeneRanges_demo ⟨-11, by decide, by decide⟩

/-- Claim C4 (confirmed): on every successfully constructed optimizer, a
`step` call whose fitness vector has a definite length different from the
population size `genome_no = sum(partition)` fails with the ValueError
contract and does not proceed. -/
theorem step_fitness_length_mismatch (gi : GeneInput) (p : List ℤ) (e : ℕ)
    (r r' : ℕ → ℚ) (o : GeneticOptimizer) (v : List ℚ)
    (ho : GeneticOptimizer.init gi p e r = .ok o)
    (hv : v.length ≠ (p.map Int.toNat).sum) :
    o.step (.vector v) r' = .error .valueError := by
  apply step_vector_error
  rw [(init_ok_facts ho).2.2.1]
  exact hv

theorem validateGeneRanges_demo2 :
    validateGeneRanges (.table [[0, 1], [0, 1]]) =
      .ok [((0 : ℚ), (1 : ℚ)), ((0 : ℚ), (1 : ℚ))] := by
  simp [validateGeneRanges]

/-- The optimizer of the reference test configuration: two genes, partition
`(4, 22)` (so `genome_no = 26`), 100 epochs. -/
def demoOpt26 : GeneticOptimizer :=
  { gene_ranges := [(0, 1), (0, 1)], partition := [4, 22], genome_no := 26,
    epochs := 100, epoch := 0, alpha := 6 / 10, beta := 4 / 10,
    mutation_rate := 1 / 4, pool := init_pool [(0, 1), (0, 1)] 26 chalf }

theorem init_demo26 :
    GeneticOptimizer.init (.table [[0, 1], [0, 1]]) [4, 22] 100 chalf =
      .ok demoOpt26 := by
  rw [init_eq_ok validateGeneRanges_demo2 (by decide)]
  rfl

theorem step_fitness_length_mismatch_witness :
    ∃ o, GeneticOptimizer.init (.table [[0, 1], [0, 1]]) [4, 22] 100 chalf =
        .ok o ∧
      o.step (.vector [1, 2, 3, 4]) chalf = .error .valueError :=
  ⟨demoOpt26, init_demo26,
    step_fitness_length_mismatch (.table [[0, 1], [0, 1]]) [4, 22] 100 chalf
      chalf demoOpt26 [1, 2, 3, 4] init_demo26 (by decide)⟩

/-- Claim C5 (confirmed): for every gene-range table some row of which has
max ≤ min, construction fails eagerly with the RangeError contract (the
ValueError that `test_init_max_min` expects) and no optimizer instance is
produced. -/
theorem init_max_min_range_error (rows : List (List ℚ)) (p : List ℤ) (e : ℕ)
    (r : ℕ → ℚ) (hshape : ∀ row ∈ rows, row.length = 2)
    (hbad : ∃ row ∈ rows, ∃ mn mx : ℚ, row = [mn, mx] ∧ mx ≤ mn) :
    GeneticOptimizer.init (.table rows) p e r = .error .rangeError := by
  have hv : validateGeneRanges (.table rows) = .error .rangeError := by
    simp only [validateGeneRanges]
    rw [if_pos (List.all_eq_true.mpr (fun row hrow => by
      simpa using hshape row hrow))]
    rw [if_neg ?_]
    intro hall
    obtain ⟨row, hrow, mn, mx, hrmn, hmx⟩ := hbad
    have hmem : (row.getD 0 0, row.getD 1 0) ∈
        rows.map (fun row => (row.getD 0 0, row.getD 1 0)) :=
      List.mem_map_of_mem _ hrow
    have := List.all_eq_true.mp hall _ hmem
    rw [decide_eq_true_eq] at this
    rw [hrmn] at this
    simp only [List.getD] at this
    exact absurd this (not_lt.mpr hmx)
  unfold GeneticOptimizer.init
  rw [hv]

theorem init_max_min_range_error_witness :
    GeneticOptimizer.init (.table [[6/5, 3/5], [6/5, 3/5]]) [4, 22] 100
      chalf = .error .rangeError :=
  init_max_min_range_error [[6/5, 3/5], [6/5, 3/5]] [4, 22] 100 chalf
    (by decide)
    ⟨[6/5, 3/5], by simp, 6/5, 3/5, rfl, by norm_num⟩

/-- Claim C6 (corrected) counterexample: on the identical parent vectors
`[2]` with gene range `[0, 1]`, the blend crossover returns the clipped
vector `[1]`, not the input `[2]` — the post-crossover clip into the
bounds-table range (spec section 4.5) breaks the identity for out-of-range
inputs. -/
theorem crossover_blxab_identical_counterexample :
    crossover_blxab [((0 : ℚ), (1 : ℚ))] (6/10) (4/10) [2] [2] chalf ≠ [2] := by
  have heval : crossover_blxab [((0 : ℚ), (1 : ℚ))] (6/10) (4/10) [2] [2] chalf
      = [1] := by
    simp [crossover_blxab, clipGene, chalf, List.range_succ]
  rw [heval]
  intro hcontra
  rw [List.cons.injEq] at hcontra
  exact absurd hcontra.1 (by norm_num)

/-- Claim C6 (corrected, amended): `crossover_blxab` applied to two
identical vectors returns a vector equal to the input (`d = 0` collapses the
sampling interval to a point), provided every entry having a gene-range row
lies within that row — entries outside their range are changed by the final
clip into the bounds table. -/
theorem crossover_blxab_identical (ranges : List (ℚ × ℚ)) (alpha beta : ℚ)
    (a : List ℚ) (r : ℕ → ℚ) (h : genomeOK ranges a = true) :
    crossover_blxab ranges alpha beta a a r = a := by
  unfold crossover_blxab
  apply List.ext_getElem
  · simp
  · intro i h1 h2
    rw [List.getElem_map, List.getElem_range]
    have hgetD : a.getD i 0 = a[i] := by
      rw [List.getD_eq_getElem?_getD, List.getElem?_eq_getElem h2]
      rfl
    simp only [min_self, max_self, sub_self, mul_zero, sub_zero, add_zero,
      le_refl, if_pos]
    cases hp : ranges.get? i with
    | none =>
      unfold clipGene
      rw [hp, hgetD]
    | some p =>
      have hb := genomeOK_elim h i h2 p hp
      unfold clipGene
      rw [hp]
      show max p.1 (min (a.getD i 0) p.2) = a[i]
      rw [min_eq_left hb.2, max_eq_right hb.1, hgetD]

theorem crossover_blxab_identical_witness :
    genomeOK [((0 : ℚ), (1 : ℚ))] [1/2] = true ∧
    crossover_blxab [((0 : ℚ), (1 : ℚ))] (6/10) (4/10) [1/2] [1/2] chalf
      = [1/2] := by
  have hg : genomeOK [((0 : ℚ), (1 : ℚ))] [1/2] = true := by
    simp [genomeOK]
    norm_num
  exact ⟨hg, crossover_blxab_identical _ _ _ _ chalf hg⟩

/-- Claim C7 (confirmed): `remove_duplicates` is idempotent, never increases
the pool length, and returns a duplicate-free pool unchanged. -/
theorem remove_duplicates_props (pool : List (List ℚ)) :
    remove_duplicates (remove_duplicates pool) = remove_duplicates pool ∧
    (remove_duplicates pool).length ≤ pool.length ∧
    (pool.Nodup → remove_duplicates pool = pool) :=
  ⟨remove_duplicates_idem pool, remove_duplicates_length pool,
    fun h => remove_duplicates_eq_of_nodup h⟩

theorem remove_duplicates_props_witness :
    remove_duplicates [[0], [1]] = [[0], [1]] :=
  (remove_duplicates_props [[0], [1]]).2.2 (by norm_num)
